import Mathlib

/-
  A shallow embedding of offset_manager.go (package sarama): the offset
  manager registry, the partition offset manager and the broker offset
  manager, together with proofs of the behavioural properties stated in
  the design document.

  Conventions of the embedding:
  - Go maps become association lists (alookup / aupdate / adelete);
  - mutation becomes explicit state passing;
  - a Go function returning a possibly-nil error becomes a function
    returning an Option SErr next to the new state (none = nil error);
  - a Go channel of capacity c becomes a pending counter together with a
    step function on which a send only fires while pending < c (a send on
    a full channel suspends the sender, so it does not produce a step);
  - broker and goroutine identities become natural numbers.
-/

namespace Sarama

/-- Kafka protocol error codes (KError) used by offset_manager.go. The
codes other than the four named in the source are represented by
`otherError` with a numeric code. -/
inductive KError where
  | noError
  | unknownTopicOrPartition
  | notLeaderForPartition
  | leaderNotAvailable
  | otherError (code : Nat)
  deriving DecidableEq

/-- Go-level error values produced or forwarded by offset_manager.go.
`transportError` stands for an arbitrary error returned by the network
layer (FetchOffset / CommitOffset failing as a whole). -/
inductive SErr where
  | configurationError (msg : String)
  | errIncompleteResponse
  | errClosedClient
  | kerror (e : KError)
  | transportError (code : Nat)
  deriving DecidableEq

/-- Association-list lookup, the embedding of a Go map read `m[k]`
(none = the zero value / absence). -/
def alookup {α β : Type} [DecidableEq α] : List (α × β) → α → Option β
  | [], _ => none
  | (k, v) :: rest, a => if k = a then some v else alookup rest a

/-- Association-list update, the embedding of a Go map write `m[k] = v`. -/
def aupdate {α β : Type} [DecidableEq α] : List (α × β) → α → β → List (α × β)
  | [], a, b => [(a, b)]
  | (k, v) :: rest, a, b =>
      if k = a then (a, b) :: rest else (k, v) :: aupdate rest a b

/-- Association-list removal, the embedding of Go `delete(m, k)`. -/
def adelete {α β : Type} [DecidableEq α] : List (α × β) → α → List (α × β)
  | [], _ => []
  | (k, v) :: rest, a => if k = a then rest else (k, v) :: adelete rest a

/-- The value-level state of a partitionOffsetManager: the identifying
(topic, partition) and the mutable offset / metadata pair guarded by the
lock of the manager. -/
structure PartitionOffsetManager where
  topic : String
  partition : Int
  offset : Int
  metadata : String
  deriving DecidableEq

namespace PartitionOffsetManager

/-- SetOffset from offset_manager.go, the locked write of the offset field. -/
def SetOffset (pom : PartitionOffsetManager) (offset : Int) :
    PartitionOffsetManager :=
  { pom with offset := offset }

/-- SetMetadata from offset_manager.go, the locked write of the metadata field. -/
def SetMetadata (pom : PartitionOffsetManager) (metadata : String) :
    PartitionOffsetManager :=
  { pom with metadata := metadata }

/-- Offset from offset_manager.go, the locked read of the offset field. -/
def Offset (pom : PartitionOffsetManager) : Int := pom.offset

/-- Metadata from offset_manager.go, the locked read of the metadata field. -/
def Metadata (pom : PartitionOffsetManager) : String := pom.metadata

end PartitionOffsetManager

/-- One block of an OffsetFetchResponse: the stored offset, the stored
metadata and the per-partition error code. -/
structure OffsetFetchResponseBlock where
  Offset : Int
  Metadata : String
  Err : KError
  deriving DecidableEq

/-- An OffsetFetchResponse, keyed by (topic, partition) as GetBlock reads it. -/
structure OffsetFetchResponse where
  blocks : List ((String × Int) × OffsetFetchResponseBlock)
  deriving DecidableEq

/-- GetBlock of OffsetFetchResponse (nil when the pair is absent). -/
def OffsetFetchResponse.GetBlock (r : OffsetFetchResponse)
    (topic : String) (partition : Int) : Option OffsetFetchResponseBlock :=
  alookup r.blocks (topic, partition)

/-- fetchInitialOffset from offset_manager.go. `fetchResult` is the outcome
of the FetchOffset network call; the returned Option SErr is the Go error
value of the function (none = nil). In the source the `default:` branch of
the switch on block.Err executes `return err`, and `err` at that point is
the nil error of the already-successful FetchOffset call, so the embedding
of that branch returns the manager unchanged with a nil error. -/
def fetchInitialOffset (pom : PartitionOffsetManager)
    (fetchResult : Except SErr OffsetFetchResponse) :
    PartitionOffsetManager × Option SErr :=
  match fetchResult with
  | .error e => (pom, some e)
  | .ok response =>
    match response.GetBlock pom.topic pom.partition with
    | none => (pom, some .errIncompleteResponse)
    | some block =>
      match block.Err with
      | .noError =>
          ({ pom with offset := block.Offset, metadata := block.Metadata }, none)
      | _ => (pom, none)

/-- One block of an OffsetCommitRequest as produced by AddBlock. -/
structure OffsetCommitBlock where
  topic : String
  partition : Int
  offset : Int
  timestamp : Int
  metadata : String
  deriving DecidableEq

/-- constructRequest from offset_manager.go: one block per subscribed
partition, reading offset and metadata under the lock of that partition
(the snapshot read is one atomic step per partition). -/
def constructRequest (subscriptions : List PartitionOffsetManager) :
    List OffsetCommitBlock :=
  subscriptions.map fun s =>
    { topic := s.topic, partition := s.partition, offset := s.offset,
      timestamp := 0, metadata := s.metadata }

/-- The channel capacities fixed by newPartitionOffsetManager:
errors has capacity conf.ChannelBufferSize, rebalance has capacity 1. -/
structure PomChannelCapacities where
  errorsCapacity : Nat
  rebalanceCapacity : Nat
  deriving DecidableEq

/-- The channel allocation part of newPartitionOffsetManager from
offset_manager.go: make(chan error, ChannelBufferSize) and
make(chan none, 1). -/
def newPartitionOffsetManagerChannels (channelBufferSize : Nat) :
    PomChannelCapacities :=
  { errorsCapacity := channelBufferSize, rebalanceCapacity := 1 }

/-- An operation completing on a Go channel: a send that was accepted into
the buffer, or a receive. -/
inductive ChanOp where
  | send
  | recv
  deriving DecidableEq

/-- Semantics of a buffered Go channel holding `pending` queued items: a
send completes only while the buffer is not full (a sender on a full
channel suspends and contributes no step), a receive only while the buffer
is not empty. -/
def chanStep (capacity pending : Nat) : ChanOp → Option Nat
  | .send => if pending < capacity then some (pending + 1) else none
  | .recv => if 0 < pending then some (pending - 1) else none

/-- The pending counts a channel of the given capacity can reach from
empty through completed sends and receives. -/
inductive ChanReachable (capacity : Nat) : Nat → Prop where
  | init : ChanReachable capacity 0
  | step {n m : Nat} (op : ChanOp) (h : ChanReachable capacity n)
      (hs : chanStep capacity n op = some m) : ChanReachable capacity m

/-- The partition-manager side of the offsetManager registry: the poms
field, a map topic → partition → partitionOffsetManager. -/
structure OffsetManagerPoms where
  poms : List (String × List (Int × PartitionOffsetManager))
  deriving DecidableEq

/-- The registry a fresh NewOffsetManagerFromClient starts with: an empty
poms map. -/
def emptyOffsetManagerPoms : OffsetManagerPoms := ⟨[]⟩

/-- The registered manager for a pair, read through both map levels. -/
def OffsetManagerPoms.lookupPom (om : OffsetManagerPoms)
    (topic : String) (partition : Int) : Option PartitionOffsetManager :=
  match alookup om.poms topic with
  | none => none
  | some topicManagers => alookup topicManagers partition

/-- ManagePartition from offset_manager.go, restricted to its registration
step under the registry lock. `pom` is the manager newPartitionOffsetManager
already built before the lock was taken: if the inner map has no slot for
the topic it is created, and if the partition slot is occupied the call
returns a ConfigurationError and the new manager is discarded; otherwise
the new manager is stored and returned. -/
def OffsetManagerPoms.ManagePartition (om : OffsetManagerPoms)
    (topic : String) (partition : Int) (pom : PartitionOffsetManager) :
    OffsetManagerPoms × Except SErr PartitionOffsetManager :=
  let topicManagers :=
    match alookup om.poms topic with
    | none => []
    | some tm => tm
  match alookup topicManagers partition with
  | some _ =>
      (om, .error (.configurationError "That topic/partition is already being managed"))
  | none =>
      (⟨aupdate om.poms topic ((partition, pom) :: topicManagers)⟩, .ok pom)

/-- Well-formedness of the registry poms map: the topic keys are pairwise
distinct and so are the partition keys inside every topic. Under this
shape a pair can be occupied by at most one live manager. -/
def OffsetManagerPoms.WF (om : OffsetManagerPoms) : Prop :=
  om.poms.Pairwise (fun a b => a.1 ≠ b.1) ∧
  ∀ e ∈ om.poms, e.2.Pairwise (fun a b => a.1 ≠ b.1)

/-- The registry states reachable from a fresh registry through any
sequence of ManagePartition calls. -/
inductive ReachableRegistry : OffsetManagerPoms → Prop where
  | init : ReachableRegistry emptyOffsetManagerPoms
  | step {om : OffsetManagerPoms} (topic : String) (partition : Int)
      (pom : PartitionOffsetManager) (h : ReachableRegistry om) :
      ReachableRegistry (om.ManagePartition topic partition pom).1

/-- One brokerOffsetManager instance as the registry hands it out: the Go
pointer identity is modelled by `id`, and the broker field records which
broker the manager was created for. The mutable refs counter and the
state of the newSubscriptions channel live in OffsetManagerBoms, indexed
by `id`, because Go shares them through the pointer. -/
structure BrokerOffsetManagerRef where
  id : Nat
  broker : Nat
  deriving DecidableEq

/-- The broker-manager side of the offsetManager registry: the boms map
(broker → brokerOffsetManager), the per-instance reference counts, the
per-instance closed flag of the newSubscriptions channel, and the supply
of fresh instance identities. -/
structure OffsetManagerBoms where
  boms : List (Nat × BrokerOffsetManagerRef)
  refs : Nat → Int
  chanClosed : Nat → Bool
  nextId : Nat

/-- The broker-manager side of a fresh registry: no instances, every
counter at its zero value. -/
def emptyOffsetManagerBoms : OffsetManagerBoms :=
  { boms := [], refs := fun _ => 0, chanClosed := fun _ => false, nextId := 0 }

/-- newBrokerOffsetManager from offset_manager.go: a fresh instance for
the broker, its refs at the Go zero value 0 and its newSubscriptions
channel open. (The commit-interval timer and the spawned goroutine carry
no registry state and are not modelled here.) -/
def newBrokerOffsetManager (om : OffsetManagerBoms) (broker : Nat) :
    OffsetManagerBoms × BrokerOffsetManagerRef :=
  let bom : BrokerOffsetManagerRef := { id := om.nextId, broker := broker }
  ({ om with
      refs := fun i => if i = bom.id then 0 else om.refs i,
      chanClosed := fun i => if i = bom.id then false else om.chanClosed i,
      nextId := om.nextId + 1 },
   bom)

/-- refBrokerOffsetManager from offset_manager.go: under the registry lock,
look the broker up in boms, lazily creating and storing a new instance on a
miss, then increment the refs counter of the resulting instance. -/
def refBrokerOffsetManager (om : OffsetManagerBoms) (broker : Nat) :
    OffsetManagerBoms × BrokerOffsetManagerRef :=
  let (om1, bom) :=
    match alookup om.boms broker with
    | some bom => (om, bom)
    | none =>
        let (om1, bom) := newBrokerOffsetManager om broker
        ({ om1 with boms := aupdate om1.boms broker bom }, bom)
  ({ om1 with refs := fun i => if i = bom.id then om1.refs i + 1 else om1.refs i },
   bom)

/-- unrefBrokerOffsetManager from offset_manager.go: under the registry
lock, decrement the refs counter of the instance; when it reaches 0, close
the newSubscriptions channel and, only if the boms entry for the broker of
the instance still is this very instance, delete that entry. -/
def unrefBrokerOffsetManager (om : OffsetManagerBoms)
    (bom : BrokerOffsetManagerRef) : OffsetManagerBoms :=
  let om1 := { om with
    refs := fun i => if i = bom.id then om.refs i - 1 else om.refs i }
  if om1.refs bom.id = 0 then
    let om2 := { om1 with
      chanClosed := fun i => if i = bom.id then true else om1.chanClosed i }
    if alookup om2.boms bom.broker = some bom then
      { om2 with boms := adelete om2.boms bom.broker }
    else om2
  else om1

/-- abandonBroker from offset_manager.go: under the registry lock,
unconditionally delete the boms entry for the broker of the instance. -/
def abandonBroker (om : OffsetManagerBoms) (bom : BrokerOffsetManagerRef) :
    OffsetManagerBoms :=
  { om with boms := adelete om.boms bom.broker }

/-- An OffsetCommitResponse: Errors is the Go map
topic → partition → KError. -/
structure OffsetCommitResponse where
  Errors : List (String × List (Int × KError))
  deriving DecidableEq

/-- What the response-processing loop of flushToBroker decides for one
subscribed partition. -/
inductive FlushOutcome where
  | keep
  | dropRebalance
  | errorDropRebalance (e : SErr)
  deriving DecidableEq

/-- The body of the response loop of flushToBroker for one subscription s:
a missing topic entry or a missing partition entry is an incomplete
response (error, drop, rebalance); error code none keeps the subscription;
the three coordinator-moved codes drop and rebalance without an error; any
other code is reported, dropped and rebalanced. -/
def handleSubscription (response : OffsetCommitResponse)
    (s : PartitionOffsetManager) : FlushOutcome :=
  match alookup response.Errors s.topic with
  | none => .errorDropRebalance .errIncompleteResponse
  | some topicErrors =>
    match alookup topicErrors s.partition with
    | none => .errorDropRebalance .errIncompleteResponse
    | some err =>
      match err with
      | .noError => .keep
      | .unknownTopicOrPartition => .dropRebalance
      | .notLeaderForPartition => .dropRebalance
      | .leaderNotAvailable => .dropRebalance
      | _ => .errorDropRebalance (.kerror err)

/-- The observable outcome of one flushToBroker call. `errored` lists the
handleError invocations in order (handleError is the only way anything
reaches the Errors stream of a partition); `rebalanced` lists the
rebalance signals sent; `subscriptions` is the subscription set left
behind; `nilResponsePanic` records that the call dereferenced the nil
response pointer of a failed CommitOffset (a Go runtime panic). -/
structure FlushEffects where
  abandoned : Bool
  brokerClosed : Bool
  errored : List (PartitionOffsetManager × SErr)
  rebalanced : List PartitionOffsetManager
  subscriptions : List PartitionOffsetManager
  nilResponsePanic : Bool
  deriving DecidableEq

/-- flushToBroker from offset_manager.go, together with the abort helper it
calls. `subscriptions` is the current subscription set of the broker
manager, `pendingAttach` the partitions queued in the newSubscriptions
channel that abort drains, `commitResult` the outcome of CommitOffset.
On a transport error the source calls abort (abandon the registry entry,
close the broker connection, deliver the error and a rebalance signal to
every subscribed and every pending partition) but does NOT return: control
falls through into the response loop with a nil response, so with a
nonempty subscription set the first field access response.Errors panics,
and with an empty one the loop body never runs and the call returns as if
the flush had succeeded. -/
def flushToBroker (subscriptions pendingAttach : List PartitionOffsetManager)
    (commitResult : Except SErr OffsetCommitResponse) : FlushEffects :=
  match commitResult with
  | .error e =>
      { abandoned := true
        brokerClosed := true
        errored := subscriptions.map (fun s => (s, e)) ++
          pendingAttach.map (fun s => (s, e))
        rebalanced := subscriptions ++ pendingAttach
        subscriptions := subscriptions
        nilResponsePanic := !subscriptions.isEmpty }
  | .ok response =>
      { abandoned := false
        brokerClosed := false
        errored := subscriptions.filterMap fun s =>
          match handleSubscription response s with
          | .errorDropRebalance e => some (s, e)
          | _ => none
        rebalanced := subscriptions.filter fun s =>
          !(handleSubscription response s == .keep)
        subscriptions := subscriptions.filter fun s =>
          handleSubscription response s == .keep
        nilResponsePanic := false }

/-- The runtime shell of a partitionOffsetManager around its value state:
the broker field (the held brokerOffsetManager reference, nil when
detached) and whether the mainLoop goroutine is still running. -/
structure PartitionOffsetManagerRuntime where
  state : PartitionOffsetManager
  broker : Option BrokerOffsetManagerRef
  mainLoopRunning : Bool
  deriving DecidableEq

/-- AsyncClose from offset_manager.go. Its body is the comment
TODO implement me, so the embedding returns the runtime state unchanged. -/
def PartitionOffsetManagerRuntime.AsyncClose
    (pom : PartitionOffsetManagerRuntime) : PartitionOffsetManagerRuntime :=
  pom

/-- Close from offset_manager.go: it calls AsyncClose and returns nil. -/
def PartitionOffsetManagerRuntime.Close (pom : PartitionOffsetManagerRuntime) :
    PartitionOffsetManagerRuntime × Option SErr :=
  (pom.AsyncClose, none)

/-- A registry-with-partitions configuration for the reference-count
invariant: the broker-manager side of the registry, the identities of the
live partition managers, and for each partition manager the
brokerOffsetManager reference its broker field holds (none while
detached). -/
structure PomAttachState where
  om : OffsetManagerBoms
  pomIds : List Nat
  pomBroker : Nat → Option BrokerOffsetManagerRef

/-- Whether the partition manager p holds, through the broker-reference
assignment f, a reference to the broker-manager instance with identity b. -/
def pomPointsAt (f : Nat → Option BrokerOffsetManagerRef) (b p : Nat) : Bool :=
  match f p with
  | some bom => bom.id == b
  | none => false

/-- How many live partition managers currently point at the broker-manager
instance with identity b. -/
def pointingCount (s : PomAttachState) (b : Nat) : Nat :=
  s.pomIds.countP (pomPointsAt s.pomBroker b)

/-- The lock-protected registry transitions that move broker references,
as selectBroker and abort perform them: a detached partition manager
acquires a reference through refBrokerOffsetManager and stores it in its
broker field; an attached one releases its reference through
unrefBrokerOffsetManager and clears the field; an aborting broker manager
abandons its registry entry. -/
inductive AttachStep : PomAttachState → PomAttachState → Prop where
  | attach (s : PomAttachState) (p broker : Nat) (hp : p ∈ s.pomIds)
      (hnone : s.pomBroker p = none) :
      AttachStep s
        { om := (refBrokerOffsetManager s.om broker).1
          pomIds := s.pomIds
          pomBroker := fun q =>
            if q = p then some (refBrokerOffsetManager s.om broker).2
            else s.pomBroker q }
  | detach (s : PomAttachState) (p : Nat) (bom : BrokerOffsetManagerRef)
      (hp : p ∈ s.pomIds) (hsome : s.pomBroker p = some bom) :
      AttachStep s
        { om := unrefBrokerOffsetManager s.om bom
          pomIds := s.pomIds
          pomBroker := fun q => if q = p then none else s.pomBroker q }
  | abandon (s : PomAttachState) (bom : BrokerOffsetManagerRef) :
      AttachStep s
        { om := abandonBroker s.om bom
          pomIds := s.pomIds
          pomBroker := s.pomBroker }

/-- The configurations reachable from a fresh registry with a fixed set of
detached partition managers through any interleaving of attach, detach and
abandon transitions. -/
inductive ReachableAttach : PomAttachState → Prop where
  | init (pomIds : List Nat) (h : pomIds.Nodup) :
      ReachableAttach
        { om := emptyOffsetManagerBoms, pomIds := pomIds,
          pomBroker := fun _ => none }
  | step {s t : PomAttachState} (h : ReachableAttach s)
      (hs : AttachStep s t) : ReachableAttach t

/-- The reference-count invariant: the live partition identities are
distinct, every refs counter equals the number of partition managers
pointing at that instance, every held reference and every registry entry
names an already-allocated instance identity. -/
def RefInv (s : PomAttachState) : Prop :=
  s.pomIds.Nodup ∧
  (∀ b : Nat, s.om.refs b = (pointingCount s b : Int)) ∧
  (∀ p : Nat, ∀ bom : BrokerOffsetManagerRef,
      s.pomBroker p = some bom → bom.id < s.om.nextId) ∧
  (∀ e ∈ s.om.boms, e.2.id < s.om.nextId)

/-
  Theorems. First the association-list and counting toolbox, then the
  behaviour of the registry operations, then the claims.
-/

@[simp] theorem alookup_nil {α β : Type} [DecidableEq α] (a : α) :
    alookup ([] : List (α × β)) a = none := rfl

@[simp] theorem alookup_cons {α β : Type} [DecidableEq α]
    (k : α) (v : β) (rest : List (α × β)) (a : α) :
    alookup ((k, v) :: rest) a = if k = a then some v else alookup rest a := rfl

theorem alookup_aupdate_self {α β : Type} [DecidableEq α]
    (l : List (α × β)) (a : α) (b : β) : alookup (aupdate l a b) a = some b := by
  induction l with
  | nil => simp [aupdate]
  | cons hd tl ih =>
      obtain ⟨k, v⟩ := hd
      by_cases hk : k = a <;> simp [aupdate, hk, ih]

theorem alookup_aupdate_other {α β : Type} [DecidableEq α]
    (l : List (α × β)) (a c : α) (b : β) (hne : a ≠ c) :
    alookup (aupdate l a b) c = alookup l c := by
  induction l with
  | nil => simp [aupdate, hne]
  | cons hd tl ih =>
      obtain ⟨k, v⟩ := hd
      by_cases hk : k = a
      · subst hk
        simp [aupdate, hne]
      · by_cases hc : k = c <;> simp [aupdate, hk, hc, Ne.symm hne, ih]

theorem alookup_mem {α β : Type} [DecidableEq α]
    {l : List (α × β)} {a : α} {b : β} (h : alookup l a = some b) : (a, b) ∈ l := by
  induction l with
  | nil => simp at h
  | cons hd tl ih =>
      obtain ⟨k, v⟩ := hd
      by_cases hk : k = a
      · subst hk
        simp at h
        simp [h]
      · simp [hk] at h
        exact List.mem_cons_of_mem _ (ih h)

theorem alookup_none_keys {α β : Type} [DecidableEq α]
    {l : List (α × β)} {a : α} (h : alookup l a = none) :
    ∀ e ∈ l, e.1 ≠ a := by
  induction l with
  | nil => simp
  | cons hd tl ih =>
      obtain ⟨k, v⟩ := hd
      by_cases hk : k = a
      · simp [hk] at h
      · simp [hk] at h
        intro e he
        rcases List.mem_cons.mp he with rfl | htl
        · exact hk
        · exact ih h e htl

theorem mem_aupdate {α β : Type} [DecidableEq α]
    {l : List (α × β)} {a : α} {b : β} {e : α × β} (h : e ∈ aupdate l a b) :
    e = (a, b) ∨ e ∈ l := by
  induction l with
  | nil => simpa [aupdate] using h
  | cons hd tl ih =>
      obtain ⟨k, v⟩ := hd
      by_cases hk : k = a
      · subst hk
        simp [aupdate] at h
        rcases h with rfl | htl
        · exact Or.inl rfl
        · exact Or.inr (List.mem_cons_of_mem _ htl)
      · simp [aupdate, hk] at h
        rcases h with rfl | htl
        · exact Or.inr (List.mem_cons_self _ _)
        · rcases ih htl with h1 | h1
          · exact Or.inl h1
          · exact Or.inr (List.mem_cons_of_mem _ h1)

theorem mem_adelete {α β : Type} [DecidableEq α]
    {l : List (α × β)} {a : α} {e : α × β} (h : e ∈ adelete l a) : e ∈ l := by
  induction l with
  | nil => simp [adelete] at h
  | cons hd tl ih =>
      obtain ⟨k, v⟩ := hd
      by_cases hk : k = a
      · subst hk
        simp [adelete] at h
        exact List.mem_cons_of_mem _ h
      · simp [adelete, hk] at h
        rcases h with rfl | htl
        · exact List.mem_cons_self _ _
        · exact List.mem_cons_of_mem _ (ih htl)

theorem pairwise_keys_aupdate {α β : Type} [DecidableEq α]
    {l : List (α × β)} (a : α) (b : β)
    (h : l.Pairwise (fun x y => x.1 ≠ y.1)) :
    (aupdate l a b).Pairwise (fun x y => x.1 ≠ y.1) := by
  induction l with
  | nil => simp [aupdate]
  | cons hd tl ih =>
      obtain ⟨k, v⟩ := hd
      rcases List.pairwise_cons.mp h with ⟨hhd, htl⟩
      by_cases hk : k = a
      · subst hk
        rw [show aupdate ((k, v) :: tl) k b = (k, b) :: tl by simp [aupdate]]
        exact List.pairwise_cons.mpr ⟨fun e he => hhd e he, htl⟩
      · rw [show aupdate ((k, v) :: tl) a b = (k, v) :: aupdate tl a b by
          simp [aupdate, hk]]
        refine List.pairwise_cons.mpr ⟨?_, ih htl⟩
        intro e he
        rcases mem_aupdate he with rfl | hmem
        · exact hk
        · exact hhd e hmem

theorem countP_ext {α : Type} {f g : α → Bool} :
    ∀ {l : List α}, (∀ x ∈ l, f x = g x) → l.countP f = l.countP g := by
  intro l
  induction l with
  | nil => intro _; rfl
  | cons hd tl ih =>
      intro h
      rw [List.countP_cons, List.countP_cons, h hd (List.mem_cons_self _ _),
        ih fun x hx => h x (List.mem_cons_of_mem _ hx)]

theorem countP_flip_up {α : Type} (l : List α) (f g : α → Bool) (p : α)
    (hnd : l.Nodup) (hp : p ∈ l) (hf : f p = false) (hg : g p = true)
    (hother : ∀ q, q ≠ p → g q = f q) :
    l.countP g = l.countP f + 1 := by
  induction l with
  | nil => cases hp
  | cons hd tl ih =>
      rcases List.nodup_cons.mp hnd with ⟨hhd, htl⟩
      rcases List.mem_cons.mp hp with rfl | hptl
      · have htleq : tl.countP g = tl.countP f :=
          countP_ext fun x hx => hother x (fun hxp => hhd (hxp ▸ hx))
        rw [List.countP_cons, List.countP_cons, hf, hg, htleq]
        simp
      · have hhdp : hd ≠ p := fun h => hhd (h ▸ hptl)
        rw [List.countP_cons, List.countP_cons, hother hd hhdp,
          ih htl hptl]
        omega

theorem pomPointsAt_of_none {f : Nat → Option BrokerOffsetManagerRef}
    {b p : Nat} (h : f p = none) : pomPointsAt f b p = false := by
  simp [pomPointsAt, h]

theorem pomPointsAt_of_some {f : Nat → Option BrokerOffsetManagerRef}
    {b p : Nat} {bom : BrokerOffsetManagerRef} (h : f p = some bom) :
    pomPointsAt f b p = (bom.id == b) := by
  simp [pomPointsAt, h]

theorem refBroker_fst_hit {om : OffsetManagerBoms} {broker : Nat}
    {bom : BrokerOffsetManagerRef} (hb : alookup om.boms broker = some bom) :
    (refBrokerOffsetManager om broker).1 =
      { om with refs := fun i => if i = bom.id then om.refs i + 1 else om.refs i } := by
  simp [refBrokerOffsetManager, hb]

theorem refBroker_snd_hit {om : OffsetManagerBoms} {broker : Nat}
    {bom : BrokerOffsetManagerRef} (hb : alookup om.boms broker = some bom) :
    (refBrokerOffsetManager om broker).2 = bom := by
  simp [refBrokerOffsetManager, hb]

theorem refBroker_snd_miss {om : OffsetManagerBoms} {broker : Nat}
    (hb : alookup om.boms broker = none) :
    (refBrokerOffsetManager om broker).2 =
      { id := om.nextId, broker := broker } := by
  simp [refBrokerOffsetManager, newBrokerOffsetManager, hb]

theorem refBroker_refs_miss {om : OffsetManagerBoms} {broker : Nat}
    (hb : alookup om.boms broker = none) (b : Nat) :
    (refBrokerOffsetManager om broker).1.refs b =
      if b = om.nextId then 1 else om.refs b := by
  simp only [refBrokerOffsetManager, newBrokerOffsetManager, hb]
  by_cases h : b = om.nextId <;> simp [h]

theorem refBroker_nextId_miss {om : OffsetManagerBoms} {broker : Nat}
    (hb : alookup om.boms broker = none) :
    (refBrokerOffsetManager om broker).1.nextId = om.nextId + 1 := by
  simp [refBrokerOffsetManager, newBrokerOffsetManager, hb]

theorem refBroker_boms_miss {om : OffsetManagerBoms} {broker : Nat}
    (hb : alookup om.boms broker = none) :
    (refBrokerOffsetManager om broker).1.boms =
      aupdate om.boms broker { id := om.nextId, broker := broker } := by
  simp [refBrokerOffsetManager, newBrokerOffsetManager, hb]

theorem unref_refs (om : OffsetManagerBoms) (bom : BrokerOffsetManagerRef)
    (b : Nat) :
    (unrefBrokerOffsetManager om bom).refs b =
      if b = bom.id then om.refs b - 1 else om.refs b := by
  by_cases h1 : om.refs bom.id - 1 = 0 <;>
    by_cases h2 : alookup om.boms bom.broker = some bom <;>
      simp [unrefBrokerOffsetManager, h1, h2]

theorem unref_nextId (om : OffsetManagerBoms) (bom : BrokerOffsetManagerRef) :
    (unrefBrokerOffsetManager om bom).nextId = om.nextId := by
  by_cases h1 : om.refs bom.id - 1 = 0 <;>
    by_cases h2 : alookup om.boms bom.broker = some bom <;>
      simp [unrefBrokerOffsetManager, h1, h2]

theorem unref_boms_sub {om : OffsetManagerBoms} {bom : BrokerOffsetManagerRef}
    {e : Nat × BrokerOffsetManagerRef}
    (h : e ∈ (unrefBrokerOffsetManager om bom).boms) : e ∈ om.boms := by
  by_cases h1 : om.refs bom.id - 1 = 0 <;>
    by_cases h2 : alookup om.boms bom.broker = some bom <;>
      simp [unrefBrokerOffsetManager, h1, h2] at h <;>
        first
        | exact h
        | exact mem_adelete h

theorem beq_false_of_ne {a b : Nat} (h : a ≠ b) : (a == b) = false := by
  simp [h]

theorem countP_pointing_update (ids : List Nat)
    (f : Nat → Option BrokerOffsetManagerRef)
    (v : Option BrokerOffsetManagerRef) (p b : Nat)
    (hold : pomPointsAt f b p = false)
    (hnew : pomPointsAt (fun q => if q = p then v else f q) b p = false) :
    ids.countP (pomPointsAt (fun q => if q = p then v else f q) b) =
      ids.countP (pomPointsAt f b) := by
  apply countP_ext
  intro q hq
  by_cases hqp : q = p
  · subst hqp
    rw [hnew, hold]
  · simp [pomPointsAt, hqp]

theorem refInv_step {s t : PomAttachState} (hs : AttachStep s t)
    (h : RefInv s) : RefInv t := by
  obtain ⟨hnd, hcount, hplt, hblt⟩ := h
  cases hs with
  | attach p broker hp hnone =>
      cases hb : alookup s.om.boms broker with
      | some bom =>
          simp only [refBroker_fst_hit hb, refBroker_snd_hit hb]
          have hbomlt : bom.id < s.om.nextId :=
            hblt (broker, bom) (alookup_mem hb)
          refine ⟨hnd, ?_, ?_, ?_⟩
          · intro b
            show (if b = bom.id then s.om.refs b + 1 else s.om.refs b) =
              (s.pomIds.countP (pomPointsAt
                (fun q => if q = p then some bom else s.pomBroker q) b) : Int)
            by_cases hbb : b = bom.id
            · subst hbb
              rw [if_pos rfl]
              rw [countP_flip_up s.pomIds (pomPointsAt s.pomBroker bom.id)
                  (pomPointsAt
                    (fun q => if q = p then some bom else s.pomBroker q) bom.id)
                  p hnd hp (pomPointsAt_of_none hnone)
                  (by rw [pomPointsAt_of_some
                      (show (fun q => if q = p then some bom else s.pomBroker q) p
                        = some bom by simp)]
                      simp)
                  (fun q hq => by simp [pomPointsAt, hq])]
              have hc := hcount bom.id
              simp only [pointingCount] at hc
              omega
            · rw [if_neg hbb]
              rw [countP_pointing_update s.pomIds s.pomBroker (some bom) p b
                  (pomPointsAt_of_none hnone)
                  (by rw [pomPointsAt_of_some
                      (show (fun q => if q = p then some bom else s.pomBroker q) p
                        = some bom by simp)]
                      exact beq_false_of_ne fun hBad => hbb hBad.symm)]
              have hc := hcount b
              simp only [pointingCount] at hc
              exact hc
          · intro p' bom' hsome'
            have hsome2 : (if p' = p then some bom else s.pomBroker p')
                = some bom' := hsome'
            by_cases hp' : p' = p
            · rw [if_pos hp'] at hsome2
              cases hsome2
              exact hbomlt
            · rw [if_neg hp'] at hsome2
              exact hplt p' bom' hsome2
          · exact hblt
      | none =>
          simp only [refBroker_snd_miss hb]
          refine ⟨hnd, ?_, ?_, ?_⟩
          · intro b
            show (refBrokerOffsetManager s.om broker).1.refs b =
              (s.pomIds.countP (pomPointsAt
                (fun q => if q = p
                 then some { id := s.om.nextId, broker := broker }
                 else s.pomBroker q) b) : Int)
            rw [refBroker_refs_miss hb b]
            by_cases hbb : b = s.om.nextId
            · subst hbb
              rw [if_pos rfl]
              have hzero :
                  s.pomIds.countP (pomPointsAt s.pomBroker s.om.nextId) = 0 := by
                rw [List.countP_eq_zero]
                intro q hq
                cases hqb : s.pomBroker q with
                | none => simp [pomPointsAt, hqb]
                | some bom' =>
                    have hlt := hplt q bom' hqb
                    simp [pomPointsAt, hqb, beq_iff_eq]
                    omega
              rw [countP_flip_up s.pomIds (pomPointsAt s.pomBroker s.om.nextId)
                  (pomPointsAt
                    (fun q => if q = p
                     then some { id := s.om.nextId, broker := broker }
                     else s.pomBroker q) s.om.nextId)
                  p hnd hp (pomPointsAt_of_none hnone)
                  (by rw [pomPointsAt_of_some
                      (show (fun q => if q = p
                        then some ({ id := s.om.nextId, broker := broker }
                          : BrokerOffsetManagerRef)
                        else s.pomBroker q) p
                        = some { id := s.om.nextId, broker := broker } by simp)]
                      simp)
                  (fun q hq => by simp [pomPointsAt, hq])]
              rw [hzero]
              simp
            · rw [if_neg hbb]
              rw [countP_pointing_update s.pomIds s.pomBroker
                  (some { id := s.om.nextId, broker := broker }) p b
                  (pomPointsAt_of_none hnone)
                  (by rw [pomPointsAt_of_some
                      (show (fun q => if q = p
                        then some ({ id := s.om.nextId, broker := broker }
                          : BrokerOffsetManagerRef)
                        else s.pomBroker q) p
                        = some { id := s.om.nextId, broker := broker } by simp)]
                      exact beq_false_of_ne fun hBad => hbb hBad.symm)]
              have hc := hcount b
              simp only [pointingCount] at hc
              exact hc
          · intro p' bom' hsome'
            have hsome2 : (if p' = p
                then some ({ id := s.om.nextId, broker := broker }
                  : BrokerOffsetManagerRef)
                else s.pomBroker p') = some bom' := hsome'
            show bom'.id < (refBrokerOffsetManager s.om broker).1.nextId
            rw [refBroker_nextId_miss hb]
            by_cases hp' : p' = p
            · rw [if_pos hp'] at hsome2
              cases hsome2
              exact Nat.lt_succ_self _
            · rw [if_neg hp'] at hsome2
              exact Nat.lt_succ_of_lt (hplt p' bom' hsome2)
          · intro e he
            show e.2.id < (refBrokerOffsetManager s.om broker).1.nextId
            rw [refBroker_nextId_miss hb]
            rw [refBroker_boms_miss hb] at he
            rcases mem_aupdate he with rfl | hmem
            · exact Nat.lt_succ_self _
            · exact Nat.lt_succ_of_lt (hblt e hmem)
  | detach p bom hp hsome =>
      refine ⟨hnd, ?_, ?_, ?_⟩
      · intro b
        show (unrefBrokerOffsetManager s.om bom).refs b =
          (s.pomIds.countP (pomPointsAt
            (fun q => if q = p then none else s.pomBroker q) b) : Int)
        rw [unref_refs]
        by_cases hbb : b = bom.id
        · subst hbb
          rw [if_pos rfl]
          have hflip := countP_flip_up s.pomIds
              (pomPointsAt
                (fun q => if q = p then none else s.pomBroker q) bom.id)
              (pomPointsAt s.pomBroker bom.id) p hnd hp
              (pomPointsAt_of_none
                (show (fun q => if q = p then none else s.pomBroker q) p = none
                  by simp))
              (by rw [pomPointsAt_of_some hsome]; simp)
              (fun q hq => by simp [pomPointsAt, hq])
          have hc := hcount bom.id
          simp only [pointingCount] at hc
          omega
        · rw [if_neg hbb]
          rw [countP_pointing_update s.pomIds s.pomBroker none p b
              (by rw [pomPointsAt_of_some hsome]
                  exact beq_false_of_ne fun hBad => hbb hBad.symm)
              (pomPointsAt_of_none
                (show (fun q => if q = p then none else s.pomBroker q) p = none
                  by simp))]
          have hc := hcount b
          simp only [pointingCount] at hc
          exact hc
      · intro p' bom' hsome'
        have hsome2 : (if p' = p then none else s.pomBroker p')
            = some bom' := hsome'
        show bom'.id < (unrefBrokerOffsetManager s.om bom).nextId
        rw [unref_nextId]
        by_cases hp' : p' = p
        · rw [if_pos hp'] at hsome2
          cases hsome2
        · rw [if_neg hp'] at hsome2
          exact hplt p' bom' hsome2
      · intro e he
        show e.2.id < (unrefBrokerOffsetManager s.om bom).nextId
        rw [unref_nextId]
        exact hblt e (unref_boms_sub he)
  | abandon bom =>
      refine ⟨hnd, hcount, hplt, ?_⟩
      intro e he
      exact hblt e (mem_adelete he)

theorem refInv_reachable {s : PomAttachState} (h : ReachableAttach s) :
    RefInv s := by
  induction h with
  | init pomIds hnd =>
      refine ⟨hnd, ?_, ?_, ?_⟩
      · intro b
        show (0 : Int) = (pomIds.countP (pomPointsAt (fun _ => none) b) : Int)
        rw [List.countP_eq_zero.mpr (fun q hq => by simp [pomPointsAt])]
        rfl
      · intro p bom h
        cases h
      · intro e he
        cases he
  | step h hs ih => exact refInv_step hs ih

theorem unref_chanClosed (om : OffsetManagerBoms) (bom : BrokerOffsetManagerRef)
    (b : Nat) :
    (unrefBrokerOffsetManager om bom).chanClosed b =
      if om.refs bom.id - 1 = 0 ∧ b = bom.id then true else om.chanClosed b := by
  by_cases h1 : om.refs bom.id - 1 = 0 <;>
    by_cases h2 : alookup om.boms bom.broker = some bom <;>
      by_cases h3 : b = bom.id <;>
        simp [unrefBrokerOffsetManager, h1, h2, h3]

theorem unref_boms (om : OffsetManagerBoms) (bom : BrokerOffsetManagerRef) :
    (unrefBrokerOffsetManager om bom).boms =
      if om.refs bom.id - 1 = 0 then
        (if alookup om.boms bom.broker = some bom
         then adelete om.boms bom.broker else om.boms)
      else om.boms := by
  by_cases h1 : om.refs bom.id - 1 = 0 <;>
    by_cases h2 : alookup om.boms bom.broker = some bom <;>
      simp [unrefBrokerOffsetManager, h1, h2]

theorem managePartition_occupied {om : OffsetManagerPoms} {topic : String}
    {partition : Int} {q : PartitionOffsetManager}
    (pom : PartitionOffsetManager)
    (h : om.lookupPom topic partition = some q) :
    om.ManagePartition topic partition pom =
      (om, .error (.configurationError
        "That topic/partition is already being managed")) := by
  unfold OffsetManagerPoms.lookupPom at h
  cases ht : alookup om.poms topic with
  | none => rw [ht] at h; cases h
  | some tm =>
      rw [ht] at h
      have h2 : alookup tm partition = some q := h
      unfold OffsetManagerPoms.ManagePartition
      simp [ht, h2]

theorem managePartition_free {om : OffsetManagerPoms} {topic : String}
    {partition : Int} (pom : PartitionOffsetManager)
    (h : om.lookupPom topic partition = none) :
    (om.ManagePartition topic partition pom).2 = .ok pom ∧
    (om.ManagePartition topic partition pom).1.lookupPom topic partition
      = some pom := by
  unfold OffsetManagerPoms.lookupPom at h ⊢
  unfold OffsetManagerPoms.ManagePartition
  cases ht : alookup om.poms topic with
  | none =>
      simp [ht, alookup_aupdate_self]
  | some tm =>
      rw [ht] at h
      have h2 : alookup tm partition = none := h
      simp [ht, h2, alookup_aupdate_self]

theorem managePartition_WF {om : OffsetManagerPoms} (topic : String)
    (partition : Int) (pom : PartitionOffsetManager) (h : om.WF) :
    (om.ManagePartition topic partition pom).1.WF := by
  obtain ⟨houter, hinner⟩ := h
  unfold OffsetManagerPoms.ManagePartition
  cases ht : alookup om.poms topic with
  | none =>
      simp only [ht]
      refine ⟨?_, ?_⟩
      · exact pairwise_keys_aupdate topic _ houter
      · intro e he
        rcases mem_aupdate he with rfl | hmem
        · simp
        · exact hinner e hmem
  | some tm =>
      cases hpart : alookup tm partition with
      | some q =>
          simp only [ht, hpart]
          exact ⟨houter, hinner⟩
      | none =>
          simp only [ht, hpart]
          refine ⟨?_, ?_⟩
          · exact pairwise_keys_aupdate topic _ houter
          · intro e he
            rcases mem_aupdate he with rfl | hmem
            · refine List.pairwise_cons.mpr
                ⟨?_, hinner (topic, tm) (alookup_mem ht)⟩
              intro x hx hEq
              exact alookup_none_keys hpart x hx hEq.symm
            · exact hinner e hmem

theorem registryWF_reachable {om : OffsetManagerPoms}
    (h : ReachableRegistry om) : om.WF := by
  induction h with
  | init =>
      exact ⟨List.Pairwise.nil, by intro e he; cases he⟩
  | step topic partition pom h ih =>
      exact managePartition_WF topic partition pom ih

/-
  The claims.
-/

/-- Claim C1: for every sequence of ManagePartition calls the registry
never holds two live partition offset managers for the same
(topic, partition) pair; a ManagePartition call for an occupied pair
returns a configuration error and leaves both the registry mapping and
the state of the original manager unchanged, while a call for a free pair
registers and returns the new manager. -/
theorem claim_C1_registry_dedup :
    (∀ om : OffsetManagerPoms, ReachableRegistry om → om.WF) ∧
    (∀ (om : OffsetManagerPoms) (topic : String) (partition : Int)
        (pom q : PartitionOffsetManager),
      om.lookupPom topic partition = some q →
        om.ManagePartition topic partition pom =
          (om, .error (.configurationError
            "That topic/partition is already being managed")) ∧
        (om.ManagePartition topic partition pom).1.lookupPom topic partition
          = some q) ∧
    (∀ (om : OffsetManagerPoms) (topic : String) (partition : Int)
        (pom : PartitionOffsetManager),
      om.lookupPom topic partition = none →
        (om.ManagePartition topic partition pom).2 = .ok pom ∧
        (om.ManagePartition topic partition pom).1.lookupPom topic partition
          = some pom) := by
  refine ⟨fun om h => registryWF_reachable h, ?_, ?_⟩
  · intro om topic partition pom q h
    refine ⟨managePartition_occupied pom h, ?_⟩
    rw [managePartition_occupied pom h]
    exact h
  · intro om topic partition pom h
    exact managePartition_free pom h

theorem claim_C1_registry_dedup_witness :
    (emptyOffsetManagerPoms.ManagePartition "orders" 0
        ⟨"orders", 0, 42, "m"⟩).1.lookupPom "orders" 0 =
      some ⟨"orders", 0, 42, "m"⟩ ∧
    (emptyOffsetManagerPoms.ManagePartition "orders" 0
        ⟨"orders", 0, 42, "m"⟩).1.ManagePartition "orders" 0
        ⟨"orders", 0, 0, ""⟩ =
      ((emptyOffsetManagerPoms.ManagePartition "orders" 0
          ⟨"orders", 0, 42, "m"⟩).1,
        .error (.configurationError
          "That topic/partition is already being managed")) := by
  refine ⟨?_, ?_⟩
  · exact (claim_C1_registry_dedup.2.2 emptyOffsetManagerPoms "orders" 0
      ⟨"orders", 0, 42, "m"⟩ (by decide)).2
  · exact (claim_C1_registry_dedup.2.1 _ "orders" 0 ⟨"orders", 0, 0, ""⟩
      ⟨"orders", 0, 42, "m"⟩ (by decide)).1

/-- Claim C2 (divergence evidence): on a transport-level commit failure
the abort helper does detach the manager from the registry, close the
broker connection and deliver the error plus a rebalance signal to every
subscribed and every pending partition, but the loop does not then stop:
the missing return after abort lets control fall through into the
response-processing loop, which dereferences the nil response (a runtime
panic) whenever the subscription set is nonempty. Evaluated here on one
subscribed and one pending partition. -/
theorem claim_C2_abort_fallthrough :
    flushToBroker [⟨"orders", 0, 42, "m"⟩] [⟨"payments", 3, 7, ""⟩]
        (.error (.transportError 5)) =
      { abandoned := true
        brokerClosed := true
        errored := [(⟨"orders", 0, 42, "m"⟩, .transportError 5),
          (⟨"payments", 3, 7, ""⟩, .transportError 5)]
        rebalanced := [⟨"orders", 0, 42, "m"⟩, ⟨"payments", 3, 7, ""⟩]
        subscriptions := [⟨"orders", 0, 42, "m"⟩]
        nilResponsePanic := true } := rfl

/-- Claim C3 (divergence evidence): a fetched block whose error code is
not none does NOT propagate to the caller: the default branch of the
switch returns the err variable, which is the nil error of the successful
FetchOffset call, so fetchInitialOffset reports success and leaves the
manager state uninitialized. Evaluated at error code 14
(offsets load in progress). -/
theorem claim_C3_error_code_swallowed :
    fetchInitialOffset ⟨"orders", 0, 0, ""⟩
        (.ok ⟨[(("orders", 0), ⟨5, "x", .otherError 14⟩)]⟩) =
      (⟨"orders", 0, 0, ""⟩, none) := rfl

/-- Claim C4: outside of transition windows the reference count of every
broker offset manager equals the number of partition offset managers
pointing at it (an invariant of every reachable attach / detach / abandon
interleaving); refBrokerOffsetManager increments by exactly one and
lazily creates and registers the instance on a miss;
unrefBrokerOffsetManager decrements by one, and only on reaching zero
closes the attach channel and removes the registry entry, the removal
happening only if the entry still is this instance. -/
theorem claim_C4_refcount :
    (∀ s : PomAttachState, ReachableAttach s →
      ∀ b : Nat, s.om.refs b = (pointingCount s b : Int)) ∧
    (∀ (om : OffsetManagerBoms) (broker : Nat) (bom : BrokerOffsetManagerRef),
      alookup om.boms broker = some bom →
        (refBrokerOffsetManager om broker).2 = bom ∧
        (refBrokerOffsetManager om broker).1.refs bom.id
          = om.refs bom.id + 1) ∧
    (∀ (om : OffsetManagerBoms) (broker : Nat),
      alookup om.boms broker = none →
        (refBrokerOffsetManager om broker).1.refs
            (refBrokerOffsetManager om broker).2.id = 1 ∧
        alookup (refBrokerOffsetManager om broker).1.boms broker
          = some (refBrokerOffsetManager om broker).2) ∧
    (∀ (om : OffsetManagerBoms) (bom : BrokerOffsetManagerRef),
      (unrefBrokerOffsetManager om bom).refs bom.id = om.refs bom.id - 1) ∧
    (∀ (om : OffsetManagerBoms) (bom : BrokerOffsetManagerRef),
      om.refs bom.id - 1 ≠ 0 →
        (unrefBrokerOffsetManager om bom).chanClosed = om.chanClosed ∧
        (unrefBrokerOffsetManager om bom).boms = om.boms) ∧
    (∀ (om : OffsetManagerBoms) (bom : BrokerOffsetManagerRef),
      om.refs bom.id - 1 = 0 →
        (unrefBrokerOffsetManager om bom).chanClosed bom.id = true ∧
        (alookup om.boms bom.broker = some bom →
          (unrefBrokerOffsetManager om bom).boms
            = adelete om.boms bom.broker) ∧
        (alookup om.boms bom.broker ≠ some bom →
          (unrefBrokerOffsetManager om bom).boms = om.boms)) := by
  refine ⟨?_, ?_, ?_, ?_, ?_, ?_⟩
  · exact fun s h b => (refInv_reachable h).2.1 b
  · intro om broker bom hb
    refine ⟨refBroker_snd_hit hb, ?_⟩
    rw [refBroker_fst_hit hb]
    show (if bom.id = bom.id then om.refs bom.id + 1 else om.refs bom.id)
      = om.refs bom.id + 1
    rw [if_pos rfl]
  · intro om broker hb
    constructor
    · rw [refBroker_snd_miss hb]
      simp [refBroker_refs_miss hb]
    · rw [refBroker_boms_miss hb, refBroker_snd_miss hb]
      exact alookup_aupdate_self om.boms broker _
  · intro om bom
    rw [unref_refs]
    rw [if_pos rfl]
  · intro om bom h1
    constructor
    · funext b
      rw [unref_chanClosed]
      simp [h1]
    · rw [unref_boms]
      simp [h1]
  · intro om bom h1
    refine ⟨?_, ?_, ?_⟩
    · rw [unref_chanClosed]
      simp [h1]
    · intro h2
      rw [unref_boms]
      simp [h1, h2]
    · intro h2
      rw [unref_boms]
      simp [h1, h2]

theorem claim_C4_refcount_witness :
    ∃ s : PomAttachState, ReachableAttach s ∧
      s.om.refs 0 = (pointingCount s 0 : Int) ∧ pointingCount s 0 = 2 := by
  have h0 : ReachableAttach
      { om := emptyOffsetManagerBoms, pomIds := [0, 1],
        pomBroker := fun _ => none } :=
    ReachableAttach.init [0, 1] (by decide)
  have h1 := ReachableAttach.step h0
    (AttachStep.attach _ 0 7 (by decide) rfl)
  have h2 := ReachableAttach.step h1
    (AttachStep.attach _ 1 7 (by decide) rfl)
  exact ⟨_, h2, claim_C4_refcount.1 _ h2 0, by decide⟩

/-- Claim C5: SetOffset x followed immediately by Offset returns x, and
the block constructRequest places in the batched commit request for a
subscribed partition carries exactly the offset and metadata that
partition held when the flush began - in particular, for a partition
whose last write before the flush was SetOffset x, the block carries x. -/
theorem claim_C5_no_lost_update :
    (∀ (pom : PartitionOffsetManager) (x : Int),
      (pom.SetOffset x).Offset = x) ∧
    (∀ (subs : List PartitionOffsetManager) (s : PartitionOffsetManager),
      s ∈ subs →
        ({ topic := s.topic, partition := s.partition, offset := s.Offset,
           timestamp := 0, metadata := s.Metadata } : OffsetCommitBlock)
          ∈ constructRequest subs) ∧
    (∀ (subs : List PartitionOffsetManager) (s0 : PartitionOffsetManager)
        (x : Int),
      s0.SetOffset x ∈ subs →
        ({ topic := s0.topic, partition := s0.partition, offset := x,
           timestamp := 0, metadata := s0.Metadata } : OffsetCommitBlock)
          ∈ constructRequest subs) := by
  refine ⟨fun pom x => rfl, ?_, ?_⟩
  · intro subs s hs
    exact List.mem_map_of_mem _ hs
  · intro subs s0 x hs
    exact List.mem_map_of_mem _ hs

theorem claim_C5_no_lost_update_witness :
    ((⟨"orders", 0, 1, "m"⟩ : PartitionOffsetManager).SetOffset 42).Offset
      = 42 ∧
    ({ topic := "orders", partition := 0, offset := 42, timestamp := 0,
       metadata := "m" } : OffsetCommitBlock) ∈
      constructRequest
        [(⟨"orders", 0, 1, "m"⟩ : PartitionOffsetManager).SetOffset 42] := by
  exact ⟨claim_C5_no_lost_update.1 ⟨"orders", 0, 1, "m"⟩ 42,
    claim_C5_no_lost_update.2.2 _ ⟨"orders", 0, 1, "m"⟩ 42 (by simp)⟩

/-- Claim C6: a commit response carrying one of the coordinator-moved
error codes (unknown topic-or-partition, not leader for partition, leader
not available) for a subscribed partition makes the flush remove that
partition from the subscription set and send it a rebalance signal, and
no error is delivered to its error stream for this condition. -/
theorem claim_C6_coordinator_moved
    (subs pending : List PartitionOffsetManager)
    (response : OffsetCommitResponse) (s : PartitionOffsetManager)
    (topicErrors : List (Int × KError)) (e : KError)
    (hs : s ∈ subs)
    (htm : alookup response.Errors s.topic = some topicErrors)
    (hpe : alookup topicErrors s.partition = some e)
    (hmoved : e = .unknownTopicOrPartition ∨ e = .notLeaderForPartition ∨
      e = .leaderNotAvailable) :
    s ∉ (flushToBroker subs pending (.ok response)).subscriptions ∧
    s ∈ (flushToBroker subs pending (.ok response)).rebalanced ∧
    ∀ err, (s, err) ∉ (flushToBroker subs pending (.ok response)).errored := by
  have hout : handleSubscription response s = .dropRebalance := by
    unfold handleSubscription
    simp only [htm, hpe]
    rcases hmoved with rfl | rfl | rfl <;> rfl
  refine ⟨?_, ?_, ?_⟩
  · intro hmem
    have hpred := (List.mem_filter.mp hmem).2
    rw [hout] at hpred
    exact absurd hpred (by decide)
  · exact List.mem_filter.mpr ⟨hs, by rw [hout]; decide⟩
  · intro err hmem
    rcases List.mem_filterMap.mp hmem with ⟨x, hx, hfx⟩
    cases hcase : handleSubscription response x with
    | keep => rw [hcase] at hfx; cases hfx
    | dropRebalance => rw [hcase] at hfx; cases hfx
    | errorDropRebalance e0 =>
        rw [hcase] at hfx
        simp at hfx
        obtain ⟨rfl, rfl⟩ := hfx
        rw [hout] at hcase
        cases hcase

theorem claim_C6_coordinator_moved_witness :
    (⟨"orders", 0, 42, "m"⟩ : PartitionOffsetManager) ∉
      (flushToBroker [⟨"orders", 0, 42, "m"⟩] []
        (.ok ⟨[("orders", [(0, .notLeaderForPartition)])]⟩)).subscriptions ∧
    (⟨"orders", 0, 42, "m"⟩ : PartitionOffsetManager) ∈
      (flushToBroker [⟨"orders", 0, 42, "m"⟩] []
        (.ok ⟨[("orders", [(0, .notLeaderForPartition)])]⟩)).rebalanced ∧
    ∀ err, ((⟨"orders", 0, 42, "m"⟩ : PartitionOffsetManager), err) ∉
      (flushToBroker [⟨"orders", 0, 42, "m"⟩] []
        (.ok ⟨[("orders", [(0, .notLeaderForPartition)])]⟩)).errored := by
  exact claim_C6_coordinator_moved [⟨"orders", 0, 42, "m"⟩] []
    ⟨[("orders", [(0, .notLeaderForPartition)])]⟩ ⟨"orders", 0, 42, "m"⟩
    [(0, .notLeaderForPartition)] .notLeaderForPartition
    (by simp) (by decide) (by decide) (Or.inr (Or.inl rfl))

/-- Claim C7: an initial-offset fetch whose response holds a block for the
requested pair with error code none initializes the manager offset and
metadata from the block, and a response lacking a block for the pair
fails with the incomplete-response error. -/
theorem claim_C7_initial_offset (pom : PartitionOffsetManager)
    (response : OffsetFetchResponse) (block : OffsetFetchResponseBlock) :
    (response.GetBlock pom.topic pom.partition = some block →
      block.Err = .noError →
        fetchInitialOffset pom (.ok response) =
          ({ pom with offset := block.Offset, metadata := block.Metadata },
            none) ∧
        (fetchInitialOffset pom (.ok response)).1.Offset = block.Offset ∧
        (fetchInitialOffset pom (.ok response)).1.Metadata
          = block.Metadata) ∧
    (response.GetBlock pom.topic pom.partition = none →
      fetchInitialOffset pom (.ok response) =
        (pom, some .errIncompleteResponse)) := by
  constructor
  · intro hb herr
    obtain ⟨boff, bmeta, berr⟩ := block
    cases herr
    have heq : fetchInitialOffset pom (.ok response) =
        ({ pom with offset := boff, metadata := bmeta }, none) := by
      simp only [fetchInitialOffset, hb]
    exact ⟨heq, by rw [heq]; rfl, by rw [heq]; rfl⟩
  · intro hb
    simp [fetchInitialOffset, hb]

theorem claim_C7_initial_offset_witness :
    (fetchInitialOffset ⟨"orders", 0, -1, ""⟩
        (.ok ⟨[(("orders", 0), ⟨42, "m", .noError⟩)]⟩)).1.Offset = 42 ∧
    (fetchInitialOffset ⟨"orders", 0, -1, ""⟩
        (.ok ⟨[(("orders", 0), ⟨42, "m", .noError⟩)]⟩)).1.Metadata = "m" ∧
    fetchInitialOffset ⟨"orders", 0, -1, ""⟩ (.ok ⟨[]⟩) =
      (⟨"orders", 0, -1, ""⟩, some .errIncompleteResponse) := by
  refine ⟨?_, ?_, ?_⟩
  · exact ((claim_C7_initial_offset ⟨"orders", 0, -1, ""⟩ _
      ⟨42, "m", .noError⟩).1 (by decide) rfl).2.1
  · exact ((claim_C7_initial_offset ⟨"orders", 0, -1, ""⟩ _
      ⟨42, "m", .noError⟩).1 (by decide) rfl).2.2
  · exact (claim_C7_initial_offset ⟨"orders", 0, -1, ""⟩ ⟨[]⟩
      ⟨0, "", .noError⟩).2 rfl

/-- Claim C8 (divergence evidence): AsyncClose and Close of the partition
offset manager are literal no-ops in the source (the AsyncClose body is
the comment TODO implement me and Close only calls it and returns nil):
they leave the broker attachment and the running background task exactly
as they were, against the stated obligation to release the attachment and
terminate the task. -/
theorem claim_C8_close_is_noop (pom : PartitionOffsetManagerRuntime) :
    pom.AsyncClose = pom ∧
    pom.Close = (pom, none) ∧
    pom.AsyncClose.broker = pom.broker ∧
    pom.AsyncClose.mainLoopRunning = pom.mainLoopRunning :=
  ⟨rfl, rfl, rfl, rfl⟩

/-- Claim C9: the rebalance signal slot of a partition offset manager is
the capacity-1 channel made by newPartitionOffsetManager, so along every
interleaving of completed sends and receives at most one rebalance
trigger is pending at any time. -/
theorem claim_C9_rebalance_depth_one (channelBufferSize n : Nat)
    (h : ChanReachable
      (newPartitionOffsetManagerChannels channelBufferSize).rebalanceCapacity
      n) :
    n ≤ 1 := by
  induction h with
  | init => omega
  | step op h hs ih =>
      cases op with
      | send =>
          simp only [chanStep, newPartitionOffsetManagerChannels] at hs
          split at hs
          · have hm := Option.some.inj hs
            omega
          · cases hs
      | recv =>
          simp only [chanStep] at hs
          split at hs
          · have hm := Option.some.inj hs
            omega
          · cases hs

theorem claim_C9_rebalance_depth_one_witness :
    ChanReachable
      (newPartitionOffsetManagerChannels 256).rebalanceCapacity 1 ∧
    1 ≤ 1 := by
  have h1 : ChanReachable
      (newPartitionOffsetManagerChannels 256).rebalanceCapacity 1 :=
    ChanReachable.step ChanOp.send ChanReachable.init (by decide)
  exact ⟨h1, claim_C9_rebalance_depth_one 256 1 h1⟩

/-- Claim C10: SetOffset writes only the offset field, leaving metadata,
topic and partition untouched; SetMetadata writes only the metadata
field, leaving offset, topic and partition untouched. -/
theorem claim_C10_setter_frames (pom : PartitionOffsetManager) (v : Int)
    (m : String) :
    ((pom.SetOffset v).offset = v ∧
     (pom.SetOffset v).metadata = pom.metadata ∧
     (pom.SetOffset v).topic = pom.topic ∧
     (pom.SetOffset v).partition = pom.partition) ∧
    ((pom.SetMetadata m).metadata = m ∧
     (pom.SetMetadata m).offset = pom.offset ∧
     (pom.SetMetadata m).topic = pom.topic ∧
     (pom.SetMetadata m).partition = pom.partition) :=
  ⟨⟨rfl, rfl, rfl, rfl⟩, ⟨rfl, rfl, rfl, rfl⟩⟩


end Sarama
